import Mathlib

/-!
Shallow embedding of the run-lifecycle coordinator of `lib/job_manager.js`
(the `JobManager` of joyent/manta-mola), together with theorems checking the
natural-language specification against it.

The stateful callback-chained JavaScript is embedded as pure functions:
machine the mutable `opts` fields become explicit arguments and results,
remote calls (`getObject`, `getJob`, `createJob`, `addJobKey`, `cancelJob`,
`put`) become function-typed parameters returning `Except`, and the
`vasync` control-flow combinators are given their sequential semantics.
-/

namespace MantaMola

/-- `QUEUED_STATE` constant of job_manager.js. -/
def QUEUED_STATE : String := "queued"

/-- `RUNNING_STATE` constant of job_manager.js. -/
def RUNNING_STATE : String := "running"

/-- `MAX_SECONDS_IN_AUDIT_OBJECT = 60 * 60 * 24 * 7` (7 days, in seconds). -/
def MAX_SECONDS_IN_AUDIT_OBJECT : Int := 60 * 60 * 24 * 7

/-- JavaScript `Math.round(d / 1000)` for an integer `d` (milliseconds to
seconds).  `Math.round q = ⌊q + 1/2⌋`, and for the exact rational `d / 1000`
this is `⌊(d + 500) / 1000⌋`, i.e. flooring integer division. -/
def jsRoundDiv1000 (d : Int) : Int := (d + 500).fdiv 1000

/-- One entry of the previous-jobs ledger (`jobs.json`):
`{ 'timeCreated': ..., 'audited': ... }` keyed by job id.  Timestamps are
milliseconds since the epoch (`Date.getTime()`). -/
structure JobRecord where
  timeCreated : Int
  audited : Bool
deriving Repr, DecidableEq

/-- The parsed previous-jobs object, a JS object keyed by job id, embedded as
an association list. -/
abbrev Ledger := List (String × JobRecord)

/-- The `stats` sub-object of a Marlin job status; `errors` may be absent. -/
structure JobStats where
  errors : Option Nat
deriving Repr, DecidableEq

/-- A remote Marlin job status as fetched by `common.getJob`. -/
structure RemoteJob where
  id : String
  state : String
  inputDone : Bool
  timeCreated : Int
  timeDone : Int
  stats : Option JobStats
deriving Repr, DecidableEq

/-- The ephemeral audit record built by `auditJob` (logged, not persisted). -/
structure AuditEntry where
  id : String
  jobErrors : Nat
  timeCreated : Int
  jobDurationMillis : Int
deriving Repr, DecidableEq

/-- The caller-supplied `preAudit` enrichment hook (its mutation of the audit
record is not modelled; only success or failure matters to the ledger). -/
abbrev PreAuditHook := RemoteJob → AuditEntry → Except String Unit

/-- `audit.jobErrors` as computed by `auditJob`: `job.stats.errors` when
`job.stats && job.stats.errors` is truthy, else `0`. -/
def jobErrorsOf (job : RemoteJob) : Nat :=
  match job.stats with
  | some st =>
    match st.errors with
    | some e => if e = 0 then 0 else e
    | none => 0
  | none => 0

/-- The audit record assembled by `auditJob` before the `preAudit` hook runs:
id, error count, creation time, and `jobDurationMillis = timeDone -
timeCreated`. -/
def baseAuditEntry (job : RemoteJob) : AuditEntry :=
  { id := job.id
    jobErrors := jobErrorsOf job
    timeCreated := job.timeCreated
    jobDurationMillis := job.timeDone - job.timeCreated }

/-- `JobManager.prototype.auditJob`: fails while the job is still `running`
or `queued`; otherwise builds the audit record, optionally runs the
`preAudit` hook (whose failure fails the classification), and succeeds. -/
def auditJob (preAudit : Option PreAuditHook) (job : RemoteJob) :
    Except String AuditEntry :=
  if job.state = RUNNING_STATE ∨ job.state = QUEUED_STATE then
    .error "Job is still running"
  else
    match preAudit with
    | some hk =>
      match hk job (baseAuditEntry job) with
      | .error e => .error e
      | .ok _ => .ok (baseAuditEntry job)
    | none => .ok (baseAuditEntry job)

/-- Whether `auditJob` succeeds on a fetched job (the per-operation
`status === 'ok'` test of the classification fan-in). -/
def auditOkB (preAudit : Option PreAuditHook) (j : RemoteJob) : Bool :=
  match auditJob preAudit j with
  | .ok _ => true
  | .error _ => false

/-- Whether the classification of the job id `k` succeeds in an environment
where `g` is the (deterministic) remote `common.getJob`. -/
def classifyOk (g : String → Except String RemoteJob)
    (preAudit : Option PreAuditHook) (k : String) : Bool :=
  match g k with
  | .ok j => auditOkB preAudit j
  | .error _ => false

/-- `jobsToAudit` of `auditPreviousJobs`: ids of entries with
`!job.audited`. -/
def jobsToAudit (pJobs : Ledger) : List String :=
  (pJobs.filter (fun kv => !kv.2.audited)).map Prod.fst

/-- `jobsToDelete` of `auditPreviousJobs`: ids of entries whose
`secondsSinceDone = Math.round((now - created) / 1000)` exceeds
`MAX_SECONDS_IN_AUDIT_OBJECT`. -/
def jobsToDelete (now : Int) (pJobs : Ledger) : List String :=
  (pJobs.filter (fun kv =>
    decide (jsRoundDiv1000 (now - kv.2.timeCreated) >
      MAX_SECONDS_IN_AUDIT_OBJECT))).map Prod.fst

/-- The fail-fast status fetch (`vasync.forEachParallel` over
`common.getJob`): succeeds with all job objects only when every single fetch
succeeds, otherwise the whole step fails. -/
def fetchAll (g : String → Except String RemoteJob) :
    List String → Except String (List RemoteJob)
  | [] => .ok []
  | k :: ks =>
    match g k with
    | .error e => .error e
    | .ok j =>
      match fetchAll g ks with
      | .error e => .error e
      | .ok js => .ok (j :: js)

/-- The ids `jobsToAudit[i]` whose classification operation
(`results2.operations[i]`) reported `status === 'ok'`, where
`jobObjects[i]` is the fetched status of `jobsToAudit[i]`. -/
def auditedOkKeys (preAudit : Option PreAuditHook) (toAudit : List String)
    (jobObjects : List RemoteJob) : List String :=
  ((toAudit.zip jobObjects).filter (fun p => auditOkB preAudit p.2)).map
    Prod.fst

/-- The marking loop: `pJobs[cJobId].audited = true` for each id whose
classification succeeded. -/
def markAudited (okKeys : List String) (pJobs : Ledger) : Ledger :=
  pJobs.map (fun kv =>
    if kv.1 ∈ okKeys then (kv.1, { kv.2 with audited := true }) else kv)

/-- The deletion loop: `delete pJobs[dJobId]` for each expired id whose
(post-marking) entry has `audited` set. -/
def deleteAudited (delKeys : List String) (pJobs : Ledger) : Ledger :=
  pJobs.filter (fun kv => !(decide (kv.1 ∈ delKeys) && kv.2.audited))

/-- The ledger-reconciliation core of `auditPreviousJobs`, applied to an
already-parsed previous-jobs object: partition, early return when nothing is
unaudited, fail-fast status fetch, per-entry-tolerant classification and
marking, and deletion of expired audited entries. -/
def reconcile (g : String → Except String RemoteJob)
    (preAudit : Option PreAuditHook) (now : Int) (pJobs : Ledger) :
    Except String Ledger :=
  let toAudit := jobsToAudit pJobs
  if toAudit.isEmpty then .ok pJobs
  else
    match fetchAll g toAudit with
    | .error e => .error e
    | .ok jobObjects =>
      .ok (deleteAudited (jobsToDelete now pJobs)
            (markAudited (auditedOkKeys preAudit toAudit jobObjects) pJobs))

/-- The in-memory previous-jobs object after `auditPreviousJobs` runs on a
parsed ledger: on any reconciliation failure `opts.previousJobs` keeps the
value assigned before the failing step (the parsed input). -/
def runReconcile (g : String → Except String RemoteJob)
    (preAudit : Option PreAuditHook) (now : Int) (pJobs : Ledger) : Ledger :=
  match reconcile g preAudit now pJobs with
  | .ok l => l
  | .error _ => pJobs

/-- A JavaScript error value, with the fields `run` and its stages inspect:
`name` (the `verror` cause name), `code` (Manta client error code), and the
`shouldNotFatal` marker set by `invokeGetJobObjects` / `checkRunningJobs`. -/
structure JsError where
  name : String := ""
  message : String := ""
  code : String := ""
  shouldNotFatal : Bool := false
deriving Repr, DecidableEq

/-- `verror.hasCauseWithName(err, 'JobDisabled')` on the optional pipeline
error. -/
def isJobDisabledErr (o : Option JsError) : Bool :=
  match o with
  | some e => decide (e.name = "JobDisabled")
  | none => false

/-- The final value of `audit.cronFailed`: it is reset to `0` unless the
pipeline failed with an error whose `shouldNotFatal` marker is unset. -/
def finalCronFailed (o : Option JsError) : Nat :=
  match o with
  | some e => if e.shouldNotFatal then 0 else 1
  | none => 0

/-- Observable finalization actions of `run`. -/
inductive FinalEvent where
  | persistLedger : FinalEvent
  | auditRecord : FinalEvent
deriving Repr, DecidableEq

/-- Structured record emission of `writeAuditRecord`: suppressed entirely
when `opts.noJobStart` is set. -/
def writeAuditEvents (noJobStart : Bool) : List FinalEvent :=
  if noJobStart then [] else [FinalEvent.auditRecord]

/-- The outcome of `run`'s final callback: the ordered finalization events,
the emitted `cronFailed` value, and the error passed to the caller. -/
structure FinalOutcome where
  events : List FinalEvent
  cronFailed : Nat
  returnedError : Option JsError
deriving Repr, DecidableEq

/-- The final callback of `run` (the `vasync.pipeline` completion handler):
a `JobDisabled` failure writes the audit record and calls back with no
error, without persisting the ledger; every other outcome persists the
ledger via `recordJobs`, then writes the audit record, then calls back with
the original pipeline error.  The result of the persistence attempt
(`recordResult`) is logged but never substituted for the pipeline error. -/
def runFinalize (stageErr : Option JsError) (noJobStart : Bool)
    (recordResult : Except JsError Unit) : FinalOutcome :=
  if isJobDisabledErr stageErr then
    { events := writeAuditEvents noJobStart
      cronFailed := 1
      returnedError := none }
  else
    { events := FinalEvent.persistLedger :: writeAuditEvents noJobStart
      cronFailed := finalCronFailed stageErr
      returnedError := stageErr }

/-- `vasync.pipeline` over a shared context: stages run in order and the
first stage error stops the pipeline. -/
def vasyncPipeline {α : Type} :
    List (α → α × Option JsError) → α → α × Option JsError
  | [], s => (s, none)
  | f :: fs, s =>
    match f s with
    | (s', some e) => (s', some e)
    | (s', none) => vasyncPipeline fs s'

/-- The ledger-handling phase of `auditPreviousJobs` including the store
read: `opts.previousJobs` starts as the empty object; a `ResourceNotFound`
read is treated as an empty ledger; any other read error, a parse failure,
or a reconciliation failure is passed to the stage callback, leaving
`opts.previousJobs` at its last assigned value.  Returns the resulting
`opts.previousJobs` and the stage error. -/
def runLedgerOutcome (getResult : Except JsError String)
    (parse : String → Option Ledger) (g : String → Except String RemoteJob)
    (preAudit : Option PreAuditHook) (now : Int) : Ledger × Option JsError :=
  match getResult with
  | .error e =>
    if e.code = "ResourceNotFound" then ([], none) else ([], some e)
  | .ok data =>
    match parse data with
    | none =>
      ([], some { name := "SyntaxError", message := "ledger parse failed" })
    | some pJobs =>
      match reconcile g preAudit now pJobs with
      | .error e => (pJobs, some { message := e })
      | .ok l => (l, none)

/-- `findRunningJobs` after the per-job status fetches have completed:
filter out `state === 'done'`, then classify by count. -/
def findRunningJobs (jobObjs : List RemoteJob) :
    Except String (Option RemoteJob) :=
  let runningJobs := jobObjs.filter (fun j => decide (j.state ≠ "done"))
  if runningJobs.length = 0 then .ok none
  else if runningJobs.length > 1 then
    .error "more than one job with name found"
  else .ok runningJobs[0]?

/-- Observable outcome of `checkRunningJobs`. -/
inductive CheckOutcome where
  | proceed : CheckOutcome
  | cancelledProceed : String → CheckOutcome
  | cancelFailed : String → String → CheckOutcome
  | alreadyRunning : Int → CheckOutcome
  | nameCollision : CheckOutcome
deriving Repr, DecidableEq

/-- `JobManager.prototype.checkRunningJobs` on the fetched same-named job
statuses: no live job proceeds; a single live job with open input is
cancelled (cancel failure propagates); a single live job with sealed input
fails non-fatally, recording `currentJobSecondsRunning =
Math.round(now / 1000 - started / 1000)`; more than one live job is the
fatal name-collision error. -/
def checkRunningJobs (cancelJob : String → Except String Unit) (now : Int)
    (jobObjs : List RemoteJob) : CheckOutcome :=
  match findRunningJobs jobObjs with
  | .error _ => CheckOutcome.nameCollision
  | .ok none => CheckOutcome.proceed
  | .ok (some job) =>
    if job.inputDone then
      CheckOutcome.alreadyRunning (jsRoundDiv1000 (now - job.timeCreated))
    else
      match cancelJob job.id with
      | .ok _ => CheckOutcome.cancelledProceed job.id
      | .error e => CheckOutcome.cancelFailed job.id e

/-- The run-context fields `createMarlinJob` touches: the working ledger,
the `startedJob` and `numberOfObjects` audit metrics, and the stage
result. -/
structure CreateJobOutcome where
  previousJobs : Ledger
  startedJob : Nat
  numberOfObjects : Option Nat
  result : Except String Unit
deriving Repr

/-- `JobManager.prototype.createMarlinJob`: no-op under `noJobStart`;
otherwise create the remote job, add the new unaudited ledger entry as soon
as the job id is known, then attach the input objects (`addJobKey`); only
after a successful attach are `numberOfObjects` and `startedJob = 1`
recorded.  Any failure is passed through as the stage error. -/
def createMarlinJob (createJob : Except String String)
    (addJobKey : String → List String → Except String Unit)
    (noJobStart : Bool) (now : Int) (previousJobs : Ledger)
    (objects : List String) : CreateJobOutcome :=
  if noJobStart then
    { previousJobs := previousJobs, startedJob := 0, numberOfObjects := none
      result := .ok () }
  else
    match createJob with
    | .error e =>
      { previousJobs := previousJobs, startedJob := 0
        numberOfObjects := none, result := .error e }
    | .ok jobId =>
      let prev' := previousJobs ++
        [(jobId, { timeCreated := now, audited := false })]
      match addJobKey jobId objects with
      | .error e2 =>
        { previousJobs := prev', startedJob := 0, numberOfObjects := none
          result := .error e2 }
      | .ok _ =>
        { previousJobs := prev', startedJob := 1
          numberOfObjects := some objects.length, result := .ok () }

/-! ### Supporting lemmas about the reconciliation building blocks -/

theorem mem_jobsToAudit {pJobs : Ledger} {k : String} :
    k ∈ jobsToAudit pJobs ↔ ∃ r, (k, r) ∈ pJobs ∧ r.audited = false := by
  unfold jobsToAudit
  simp only [List.mem_map, List.mem_filter, Bool.not_eq_true']
  constructor
  · rintro ⟨⟨k0, r⟩, ⟨hmem, hfilt⟩, rfl⟩
    exact ⟨r, hmem, hfilt⟩
  · rintro ⟨r, hmem, haud⟩
    exact ⟨(k, r), ⟨hmem, haud⟩, rfl⟩

theorem mem_jobsToDelete {now : Int} {pJobs : Ledger} {k : String} :
    k ∈ jobsToDelete now pJobs ↔
      ∃ r, (k, r) ∈ pJobs ∧
        jsRoundDiv1000 (now - r.timeCreated) > MAX_SECONDS_IN_AUDIT_OBJECT := by
  unfold jobsToDelete
  simp only [List.mem_map, List.mem_filter, decide_eq_true_eq]
  constructor
  · rintro ⟨⟨k0, r⟩, ⟨hmem, hfilt⟩, rfl⟩
    exact ⟨r, hmem, hfilt⟩
  · rintro ⟨r, hmem, hgt⟩
    exact ⟨(k, r), ⟨hmem, hgt⟩, rfl⟩

theorem fetchAll_ok_forall {g : String → Except String RemoteJob}
    {l : List String} {l2 : List RemoteJob} (h : fetchAll g l = .ok l2) :
    ∀ k ∈ l, ∃ j, g k = .ok j := by
  induction l generalizing l2 with
  | nil => intro k hk; simp at hk
  | cons a as ih =>
    intro k hk
    simp only [fetchAll] at h
    cases hg : g a with
    | error e => simp [hg] at h
    | ok j =>
      simp only [hg] at h
      cases hf : fetchAll g as with
      | error e => simp [hf] at h
      | ok js =>
        rcases List.mem_cons.mp hk with rfl | hmem
        · exact ⟨j, hg⟩
        · exact ih hf k hmem

theorem fetchAll_ok_of_forall {g : String → Except String RemoteJob}
    {l : List String} (h : ∀ k ∈ l, ∃ j, g k = .ok j) :
    ∃ l2, fetchAll g l = .ok l2 := by
  induction l with
  | nil => exact ⟨[], rfl⟩
  | cons a as ih =>
    obtain ⟨j, hj⟩ := h a (List.mem_cons_self a as)
    obtain ⟨js, hjs⟩ := ih (fun k hk => h k (List.mem_cons_of_mem a hk))
    exact ⟨j :: js, by simp [fetchAll, hj, hjs]⟩

theorem auditedOkKeys_eq_filter {g : String → Except String RemoteJob}
    {preAudit : Option PreAuditHook} {l : List String} {l2 : List RemoteJob}
    (h : fetchAll g l = .ok l2) :
    auditedOkKeys preAudit l l2 = l.filter (classifyOk g preAudit) := by
  induction l generalizing l2 with
  | nil => simp [auditedOkKeys]
  | cons a as ih =>
    simp only [fetchAll] at h
    cases hg : g a with
    | error e => simp [hg] at h
    | ok j =>
      simp only [hg] at h
      cases hf : fetchAll g as with
      | error e => simp [hf] at h
      | ok js =>
        simp only [hf, Except.ok.injEq] at h
        subst h
        have iht := ih hf
        simp only [auditedOkKeys] at iht ⊢
        have hcls : classifyOk g preAudit a = auditOkB preAudit j := by
          simp [classifyOk, hg]
        by_cases hok : auditOkB preAudit j = true
        · simp only [List.zip_cons_cons, List.filter_cons, hok, if_true,
            List.map_cons, hcls, iht]
        · simp only [List.zip_cons_cons, List.filter_cons, hok, if_false,
            hcls, iht, Bool.false_eq_true]

theorem markAudited_nil (pJobs : Ledger) : markAudited [] pJobs = pJobs := by
  unfold markAudited
  simp

theorem markAudited_mem_of_mem {okKeys : List String} {pJobs : Ledger}
    {k : String} {r : JobRecord} (h : (k, r) ∈ pJobs) :
    (k, if k ∈ okKeys then { r with audited := true } else r) ∈
      markAudited okKeys pJobs := by
  unfold markAudited
  have hmap := List.mem_map_of_mem
    (fun kv : String × JobRecord =>
      if kv.1 ∈ okKeys then (kv.1, { kv.2 with audited := true }) else kv) h
  by_cases hk : k ∈ okKeys
  · simpa [hk] using hmap
  · simpa [hk] using hmap

theorem markAudited_mem_elim {okKeys : List String} {pJobs : Ledger}
    {k : String} {r' : JobRecord} (h : (k, r') ∈ markAudited okKeys pJobs) :
    ∃ r, (k, r) ∈ pJobs ∧
      ((k ∈ okKeys ∧ r' = { r with audited := true }) ∨
       (k ∉ okKeys ∧ r' = r)) := by
  unfold markAudited at h
  obtain ⟨⟨k0, r0⟩, hmem, heq⟩ := List.mem_map.mp h
  by_cases hk : k0 ∈ okKeys
  · simp only [hk, if_true, Prod.mk.injEq] at heq
    obtain ⟨rfl, hr⟩ := heq
    exact ⟨r0, hmem, Or.inl ⟨hk, hr.symm⟩⟩
  · simp only [hk, if_false, Prod.mk.injEq] at heq
    obtain ⟨rfl, hr⟩ := heq
    exact ⟨r0, hmem, Or.inr ⟨hk, hr.symm⟩⟩

theorem mem_deleteAudited {delKeys : List String} {pJobs : Ledger}
    {kv : String × JobRecord} :
    kv ∈ deleteAudited delKeys pJobs ↔
      kv ∈ pJobs ∧ ¬(kv.1 ∈ delKeys ∧ kv.2.audited = true) := by
  unfold deleteAudited
  rw [List.mem_filter]
  constructor
  · rintro ⟨hmem, hb⟩
    refine ⟨hmem, ?_⟩
    intro hcon
    rw [hcon.2, decide_eq_true hcon.1] at hb
    simp at hb
  · rintro ⟨hmem, hn⟩
    refine ⟨hmem, ?_⟩
    by_cases hd : kv.1 ∈ delKeys
    · have haud : kv.2.audited = false := by
        cases ha : kv.2.audited
        · rfl
        · exact absurd ⟨hd, ha⟩ hn
      simp [haud]
    · simp [hd]

theorem deleteAudited_eq_self {delKeys : List String} {pJobs : Ledger}
    (h : ∀ kv ∈ pJobs, ¬(kv.1 ∈ delKeys ∧ kv.2.audited = true)) :
    deleteAudited delKeys pJobs = pJobs := by
  unfold deleteAudited
  apply List.filter_eq_self.mpr
  intro kv hkv
  have hk := h kv hkv
  by_cases hd : kv.1 ∈ delKeys
  · have haud : kv.2.audited = false := by
      cases ha : kv.2.audited
      · rfl
      · exact absurd ⟨hd, ha⟩ hk
    simp [haud]
  · simp [hd]

theorem nodup_key_eq {pJobs : Ledger} (h : (pJobs.map Prod.fst).Nodup)
    {k : String} {r1 r2 : JobRecord} (h1 : (k, r1) ∈ pJobs)
    (h2 : (k, r2) ∈ pJobs) : r1 = r2 := by
  induction pJobs with
  | nil => simp at h1
  | cons kv tl ih =>
    simp only [List.map_cons, List.nodup_cons] at h
    rcases List.mem_cons.mp h1 with he1 | h1'
    · rcases List.mem_cons.mp h2 with he2 | h2'
      · have h12 := he1.trans he2.symm
        exact (Prod.ext_iff.mp h12).2
      · exfalso
        apply h.1
        have : kv.1 = k := by rw [← he1]
        rw [this]
        exact List.mem_map_of_mem Prod.fst h2'
    · rcases List.mem_cons.mp h2 with he2 | h2'
      · exfalso
        apply h.1
        have : kv.1 = k := by rw [← he2]
        rw [this]
        exact List.mem_map_of_mem Prod.fst h1'
      · exact ih h.2 h1' h2'

theorem reconcile_empty {g : String → Except String RemoteJob}
    {preAudit : Option PreAuditHook} {now : Int} {pJobs : Ledger}
    (h : jobsToAudit pJobs = []) :
    reconcile g preAudit now pJobs = .ok pJobs := by
  simp [reconcile, h]

theorem reconcile_fetch_error {g : String → Except String RemoteJob}
    {preAudit : Option PreAuditHook} {now : Int} {pJobs : Ledger} {e : String}
    (hf : fetchAll g (jobsToAudit pJobs) = .error e) :
    reconcile g preAudit now pJobs = .error e := by
  have hne : (jobsToAudit pJobs).isEmpty = false := by
    cases hc : jobsToAudit pJobs with
    | nil => rw [hc] at hf; simp [fetchAll] at hf
    | cons x xs => rfl
  simp [reconcile, hne, hf]

theorem reconcile_fetch_ok {g : String → Except String RemoteJob}
    {preAudit : Option PreAuditHook} {now : Int} {pJobs : Ledger}
    {js : List RemoteJob} (hA : jobsToAudit pJobs ≠ [])
    (hf : fetchAll g (jobsToAudit pJobs) = .ok js) :
    reconcile g preAudit now pJobs =
      .ok (deleteAudited (jobsToDelete now pJobs)
        (markAudited ((jobsToAudit pJobs).filter (classifyOk g preAudit))
          pJobs)) := by
  have hne : (jobsToAudit pJobs).isEmpty = false := by
    cases hc : jobsToAudit pJobs with
    | nil => exact absurd hc hA
    | cons x xs => rfl
  simp [reconcile, hne, hf, auditedOkKeys_eq_filter hf]

theorem reconcile_ok_cases {g : String → Except String RemoteJob}
    {preAudit : Option PreAuditHook} {now : Int} {pJobs L' : Ledger}
    (h : reconcile g preAudit now pJobs = .ok L') :
    (jobsToAudit pJobs = [] ∧ L' = pJobs) ∨
    (jobsToAudit pJobs ≠ [] ∧
      (∃ js, fetchAll g (jobsToAudit pJobs) = .ok js) ∧
      L' = deleteAudited (jobsToDelete now pJobs)
        (markAudited ((jobsToAudit pJobs).filter (classifyOk g preAudit))
          pJobs)) := by
  by_cases hc : jobsToAudit pJobs = []
  · left
    rw [reconcile_empty hc] at h
    injection h with h1
    exact ⟨hc, h1.symm⟩
  · right
    cases hf : fetchAll g (jobsToAudit pJobs) with
    | error e => rw [reconcile_fetch_error hf] at h; cases h
    | ok js =>
      rw [reconcile_fetch_ok hc hf] at h
      injection h with h1
      exact ⟨hc, ⟨js, rfl⟩, h1.symm⟩

/-! ### Concrete values used by witnesses and counterexamples -/

/-- The `JobDisabled` error raised by `stopIfDisabled`. -/
def jobDisabledErr : JsError :=
  { name := "JobDisabled", message := "all jobs are disabled" }

/-- The non-fatal error raised by `invokeGetJobObjects` when the
caller-supplied object lister returns an empty list. -/
def noObjectsErr : JsError :=
  { message := "No objects provided.", shouldNotFatal := true }

/-- A representative fatal stage error (remote transport failure). -/
def transportErr : JsError := { message := "socket hang up" }

/-- A cancel function that always succeeds. -/
def cancelOkFn : String → Except String Unit := fun _ => .ok ()

/-- A live same-named job whose input stream is sealed. -/
def runningSealedJob : RemoteJob :=
  { id := "j-run", state := "running", inputDone := true, timeCreated := 0,
    timeDone := 0, stats := none }

/-- A completed job with two errors, used to exercise classification. -/
def doneJob : RemoteJob :=
  { id := "j-done", state := "done", inputDone := true, timeCreated := 1000,
    timeDone := 4600, stats := some { errors := some 2 } }

/-! ### Claims about the coordinator's finalization (C1, C3) -/

/-- Claim C1 counterexample: on a `JobDisabled` outcome the coordinator does
NOT persist the ledger — the final callback returns before `recordJobs` is
invoked — refuting "whatever the outcome of any stage ... it persists the
ledger document". -/
theorem claim1_counterexample :
    FinalEvent.persistLedger ∉
      (runFinalize (some jobDisabledErr) false (Except.ok ())).events := by
  decide

/-- Claim C1 (amended): for every outcome other than `JobDisabled` the
coordinator persists the ledger, then (when `noJobStart` is unset) emits
exactly one invocation audit-log record, and returns the original stage
error, with the persistence result never substituted for it; on a
`JobDisabled` outcome it only emits the audit record and returns no
error. -/
theorem claim1_amended (stageErr : Option JsError) (noJobStart : Bool)
    (pr pr' : Except JsError Unit) :
    (isJobDisabledErr stageErr = false →
      (runFinalize stageErr noJobStart pr).events =
        FinalEvent.persistLedger :: writeAuditEvents noJobStart ∧
      (runFinalize stageErr noJobStart pr).returnedError = stageErr) ∧
    (isJobDisabledErr stageErr = true →
      (runFinalize stageErr noJobStart pr).events =
        writeAuditEvents noJobStart ∧
      (runFinalize stageErr noJobStart pr).returnedError = none) ∧
    (noJobStart = false →
      (runFinalize stageErr noJobStart pr).events.count
        FinalEvent.auditRecord = 1) ∧
    runFinalize stageErr noJobStart pr =
      runFinalize stageErr noJobStart pr' := by
  refine ⟨?_, ?_, ?_, rfl⟩
  · intro hd
    simp [runFinalize, hd]
  · intro hd
    simp [runFinalize, hd]
  · intro hn
    subst hn
    by_cases hd : isJobDisabledErr stageErr = true
    · simp [runFinalize, hd, writeAuditEvents]
    · simp [runFinalize, hd, writeAuditEvents]

/-- Witness for claim C1's amended theorem at concrete inputs: a fatal
transport error persists the ledger and is returned unchanged, while a
`JobDisabled` error returns no error. -/
theorem claim1_witness :
    (runFinalize (some transportErr) false (Except.ok ())).events =
      FinalEvent.persistLedger :: writeAuditEvents false ∧
    (runFinalize (some transportErr) false (Except.ok ())).returnedError =
      some transportErr ∧
    (runFinalize (some jobDisabledErr) false
      (Except.error transportErr)).returnedError = none := by
  refine ⟨?_, ?_, ?_⟩
  · exact ((claim1_amended (some transportErr) false (Except.ok ())
      (Except.ok ())).1 (by decide)).1
  · exact ((claim1_amended (some transportErr) false (Except.ok ())
      (Except.ok ())).1 (by decide)).2
  · exact ((claim1_amended (some jobDisabledErr) false
      (Except.error transportErr) (Except.ok ())).2.1 (by decide)).2

/-- Claim C3 counterexample: a `NoInputObjects` failure (marked
`shouldNotFatal`) is still passed to the run callback — the caller-visible
error is not `none`, refuting "the callback receives no error". -/
theorem claim3_counterexample :
    (runFinalize (some noObjectsErr) false (Except.ok ())).returnedError ≠
      none := by
  decide

/-- Claim C3 (amended): only `JobDisabled` ends the invocation with no
caller-visible error; `NoInputObjects` and `AlreadyRunning`
(`shouldNotFatal` errors) short-circuit the stage pipeline and are not
counted as cron failures, but the original error object is passed to the
callback; fatal errors propagate unchanged with `cronFailed = 1`. -/
theorem claim3_amended (e : JsError) (noJobStart : Bool)
    (pr : Except JsError Unit) :
    (e.name = "JobDisabled" →
      (runFinalize (some e) noJobStart pr).returnedError = none) ∧
    (e.name ≠ "JobDisabled" → e.shouldNotFatal = true →
      (runFinalize (some e) noJobStart pr).returnedError = some e ∧
      (runFinalize (some e) noJobStart pr).cronFailed = 0) ∧
    (e.name ≠ "JobDisabled" → e.shouldNotFatal = false →
      (runFinalize (some e) noJobStart pr).returnedError = some e ∧
      (runFinalize (some e) noJobStart pr).cronFailed = 1) ∧
    (∀ (σ : Type) (st st' : σ) (f : σ → σ × Option JsError)
        (fs : List (σ → σ × Option JsError)),
      f st = (st', some e) → vasyncPipeline (f :: fs) st = (st', some e)) := by
  refine ⟨?_, ?_, ?_, ?_⟩
  · intro hd
    simp [runFinalize, isJobDisabledErr, hd]
  · intro hd hs
    simp [runFinalize, isJobDisabledErr, hd, finalCronFailed, hs]
  · intro hd hs
    simp [runFinalize, isJobDisabledErr, hd, finalCronFailed, hs]
  · intro σ st st' f fs hf
    simp [vasyncPipeline, hf]

/-- Witness for claim C3's amended theorem at concrete inputs. -/
theorem claim3_witness :
    (runFinalize (some noObjectsErr) false (Except.ok ())).cronFailed = 0 ∧
    (runFinalize (some transportErr) true (Except.ok ())).returnedError =
      some transportErr := by
  constructor
  · exact ((claim3_amended noObjectsErr false (Except.ok ())).2.1
      (by decide) rfl).2
  · exact ((claim3_amended transportErr true (Except.ok ())).2.2.1
      (by decide) rfl).1

/-! ### Claim about ledger corruption handling (C2) -/

/-- Claim C2 (code bug): when the stored ledger document exists but does not
parse, `auditPreviousJobs` does abort the run with a fatal error — but
`opts.previousJobs` is left as the empty object assigned before parsing, and
the finalization step still persists it.  The stored (last-known-good)
ledger document is therefore replaced by an empty document, contradicting
"the persisted ledger document is left unchanged". -/
theorem claim2_bug (g : String → Except String RemoteJob)
    (preAudit : Option PreAuditHook) (now : Int)
    (parse : String → Option Ledger) (data : String)
    (hp : parse data = none) :
    runLedgerOutcome (.ok data) parse g preAudit now =
      ([], some { name := "SyntaxError", message := "ledger parse failed" }) ∧
    isJobDisabledErr
      (some { name := "SyntaxError", message := "ledger parse failed" }) =
      false ∧
    FinalEvent.persistLedger ∈
      (runFinalize
        (some { name := "SyntaxError", message := "ledger parse failed" })
        false (Except.ok ())).events := by
  refine ⟨?_, by decide, by decide⟩
  simp [runLedgerOutcome, hp]

/-- Witness for claim C2's theorem at a concrete unparseable document. -/
theorem claim2_witness :
    runLedgerOutcome (.ok "corrupt") (fun _ => none)
      (fun _ => .error "no fetch") none 0 =
      ([], some { name := "SyntaxError", message := "ledger parse failed" }) :=
  (claim2_bug (fun _ => .error "no fetch") none 0 (fun _ => none) "corrupt"
    rfl).1

/-! ### Claim about the running-job check (C5) -/

/-- Claim C5: classification of the same-named non-terminal remote jobs —
none proceeds; exactly one with open input is cancelled and the run
proceeds; exactly one with sealed input fails non-fatally with the elapsed
running seconds recorded; more than one is the fatal name collision. -/
theorem claim5_running_job_classification
    (cancelJob : String → Except String Unit) (now : Int)
    (jobObjs : List RemoteJob) :
    (jobObjs.filter (fun j => decide (j.state ≠ "done")) = [] →
      checkRunningJobs cancelJob now jobObjs = CheckOutcome.proceed) ∧
    (∀ j, jobObjs.filter (fun j => decide (j.state ≠ "done")) = [j] →
      j.inputDone = false → cancelJob j.id = .ok () →
      checkRunningJobs cancelJob now jobObjs =
        CheckOutcome.cancelledProceed j.id) ∧
    (∀ j, jobObjs.filter (fun j => decide (j.state ≠ "done")) = [j] →
      j.inputDone = true →
      checkRunningJobs cancelJob now jobObjs =
        CheckOutcome.alreadyRunning
          (jsRoundDiv1000 (now - j.timeCreated))) ∧
    ((jobObjs.filter (fun j => decide (j.state ≠ "done"))).length > 1 →
      checkRunningJobs cancelJob now jobObjs =
        CheckOutcome.nameCollision) := by
  refine ⟨?_, ?_, ?_, ?_⟩
  · intro h
    have hfr : findRunningJobs jobObjs = Except.ok none := by
      simp only [findRunningJobs]
      rw [h]
      simp
    simp [checkRunningJobs, hfr]
  · intro j h hi hc
    have hfr : findRunningJobs jobObjs = Except.ok (some j) := by
      simp only [findRunningJobs]
      rw [h]
      simp
    simp [checkRunningJobs, hfr, hi, hc]
  · intro j h hi
    have hfr : findRunningJobs jobObjs = Except.ok (some j) := by
      simp only [findRunningJobs]
      rw [h]
      simp
    simp [checkRunningJobs, hfr, hi]
  · intro h
    have h0 :
        (jobObjs.filter (fun j => decide (j.state ≠ "done"))).length
          ≠ 0 := by omega
    have hfr : findRunningJobs jobObjs =
        Except.error "more than one job with name found" := by
      simp only [findRunningJobs]
      rw [if_neg h0, if_pos h]
    simp [checkRunningJobs, hfr]

/-- Witness for claim C5's theorem: no live job proceeds; one sealed live
job yields the non-fatal already-running outcome with its elapsed
seconds. -/
theorem claim5_witness :
    checkRunningJobs cancelOkFn 5000 [] = CheckOutcome.proceed ∧
    checkRunningJobs cancelOkFn 5000 [runningSealedJob] =
      CheckOutcome.alreadyRunning
        (jsRoundDiv1000 (5000 - runningSealedJob.timeCreated)) := by
  constructor
  · exact (claim5_running_job_classification cancelOkFn 5000 []).1 rfl
  · exact (claim5_running_job_classification cancelOkFn 5000
      [runningSealedJob]).2.2.1 runningSealedJob (by decide) rfl

/-! ### Claim about audit classification (C7) -/

/-- Claim C7: classification fails exactly while the job is `running` or
`queued`; otherwise the audit entry carries `jobErrors` equal to the job's
error-count statistic (0 when absent) and `jobDurationMillis = timeDone -
timeCreated`; a configured hook's failure fails the classification, and its
success leaves the entry intact. -/
theorem claim7_audit_classification (job : RemoteJob) :
    ((job.state = RUNNING_STATE ∨ job.state = QUEUED_STATE) →
      ∀ preAudit, ∃ e, auditJob preAudit job = .error e) ∧
    (¬(job.state = RUNNING_STATE ∨ job.state = QUEUED_STATE) →
      auditJob none job = .ok (baseAuditEntry job) ∧
      (baseAuditEntry job).jobDurationMillis =
        job.timeDone - job.timeCreated) ∧
    (∀ st e, job.stats = some st → st.errors = some e →
      (baseAuditEntry job).jobErrors = e) ∧
    (job.stats = none → (baseAuditEntry job).jobErrors = 0) ∧
    (∀ st, job.stats = some st → st.errors = none →
      (baseAuditEntry job).jobErrors = 0) ∧
    (∀ hk e, ¬(job.state = RUNNING_STATE ∨ job.state = QUEUED_STATE) →
      hk job (baseAuditEntry job) = .error e →
      auditJob (some hk) job = .error e) ∧
    (∀ hk, ¬(job.state = RUNNING_STATE ∨ job.state = QUEUED_STATE) →
      hk job (baseAuditEntry job) = .ok () →
      auditJob (some hk) job = .ok (baseAuditEntry job)) := by
  refine ⟨?_, ?_, ?_, ?_, ?_, ?_, ?_⟩
  · intro hrun preAudit
    exact ⟨"Job is still running", by simp [auditJob, hrun]⟩
  · intro hrun
    exact ⟨by simp [auditJob, hrun], rfl⟩
  · intro st e hst he
    have hje : jobErrorsOf job = e := by
      simp only [jobErrorsOf, hst, he]
      by_cases h0 : e = 0
      · simp [h0]
      · simp [h0]
    simpa [baseAuditEntry] using hje
  · intro hst
    simp [baseAuditEntry, jobErrorsOf, hst]
  · intro st hst he
    simp [baseAuditEntry, jobErrorsOf, hst, he]
  · intro hk e hrun hhk
    simp [auditJob, hrun, hhk]
  · intro hk hrun hhk
    simp [auditJob, hrun, hhk]

/-- Witness for claim C7's theorem on a concrete completed job. -/
theorem claim7_witness :
    auditJob none doneJob = .ok (baseAuditEntry doneJob) ∧
    (baseAuditEntry doneJob).jobErrors = 2 := by
  constructor
  · exact ((claim7_audit_classification doneJob).2.1 (by decide)).1
  · exact (claim7_audit_classification doneJob).2.2.1
      { errors := some 2 } 2 rfl rfl

/-! ### Claim about job creation and attach failure (C10) -/

/-- Claim C10: when remote job creation succeeds but attaching the input
objects fails, the stage fails with the attach error, the new unaudited
ledger entry has already been added to the working ledger (and a non-
disabled failure still persists the ledger at finalization), while
`startedJob` stays 0 and `numberOfObjects` is unset. -/
theorem claim10_attach_failure (jobId : String) (e2 : String)
    (addJobKey : String → List String → Except String Unit) (now : Int)
    (previousJobs : Ledger) (objects : List String)
    (hfail : addJobKey jobId objects = .error e2) :
    (createMarlinJob (.ok jobId) addJobKey false now previousJobs
      objects).previousJobs =
      previousJobs ++ [(jobId, { timeCreated := now, audited := false })] ∧
    (createMarlinJob (.ok jobId) addJobKey false now previousJobs
      objects).startedJob = 0 ∧
    (createMarlinJob (.ok jobId) addJobKey false now previousJobs
      objects).numberOfObjects = none ∧
    (createMarlinJob (.ok jobId) addJobKey false now previousJobs
      objects).result = .error e2 ∧
    (∀ (e : JsError), isJobDisabledErr (some e) = false →
      FinalEvent.persistLedger ∈
        (runFinalize (some e) false (Except.ok ())).events) := by
  refine ⟨?_, ?_, ?_, ?_, ?_⟩
  · simp [createMarlinJob, hfail]
  · simp [createMarlinJob, hfail]
  · simp [createMarlinJob, hfail]
  · simp [createMarlinJob, hfail]
  · intro e hd
    simp [runFinalize, hd, writeAuditEvents]

/-- Witness for claim C10's theorem at a concrete failing attach call. -/
theorem claim10_witness :
    (createMarlinJob (.ok "job-1") (fun _ _ => .error "attach failed") false
      42 [] ["o1"]).previousJobs =
      [("job-1", { timeCreated := 42, audited := false })] ∧
    (createMarlinJob (.ok "job-1") (fun _ _ => .error "attach failed") false
      42 [] ["o1"]).startedJob = 0 := by
  have h := claim10_attach_failure "job-1" "attach failed"
    (fun _ _ => .error "attach failed") 42 [] ["o1"] rfl
  exact ⟨by simpa using h.1, h.2.1⟩

/-! ### Claims about the reconciliation ledger invariants (C8, C6, C4, C9) -/

/-- Claim C8: no un-audited entry is ever removed by reconciliation,
regardless of age — if every occurrence of a key vanished from the resulting
ledger although its record was un-audited on entry, then that key's
classification succeeded in this cycle, i.e. its `audited` flag was true at
the time of deletion. -/
theorem claim8_unaudited_never_removed
    (g : String → Except String RemoteJob) (preAudit : Option PreAuditHook)
    (now : Int) (pJobs L' : Ledger) (k : String) (r : JobRecord)
    (hrec : reconcile g preAudit now pJobs = .ok L')
    (hmem : (k, r) ∈ pJobs) (haud : r.audited = false)
    (hgone : ∀ r', (k, r') ∉ L') :
    classifyOk g preAudit k = true := by
  rcases reconcile_ok_cases hrec with ⟨hA, hL⟩ | ⟨hA, hjs, hL⟩
  · exact absurd (hL ▸ hmem) (hgone r)
  · by_contra hcls
    have hnK : k ∉ (jobsToAudit pJobs).filter (classifyOk g preAudit) := by
      intro hkK
      exact hcls (List.of_mem_filter hkK)
    have hmark := @markAudited_mem_of_mem
      ((jobsToAudit pJobs).filter (classifyOk g preAudit)) pJobs k r hmem
    rw [if_neg hnK] at hmark
    have hin : (k, r) ∈ L' := by
      rw [hL]
      refine mem_deleteAudited.mpr ⟨hmark, ?_⟩
      rintro ⟨hkD, hktrue⟩
      rw [haud] at hktrue
      exact Bool.noConfusion hktrue
    exact hgone r hin

/-- Witness for claim C8's theorem: in the concrete eight-day-old ledger the
un-audited entry `a` disappears only because its classification succeeded
(it was marked audited before deletion). -/
theorem claim8_witness :
    classifyOk (fun _ => .ok doneJob) none "a" = true :=
  claim8_unaudited_never_removed (fun _ => .ok doneJob) none 691200000
    [("a", { timeCreated := 0, audited := false }),
     ("b", { timeCreated := 0, audited := true })] [] "a"
    { timeCreated := 0, audited := false } rfl (by decide) rfl (by simp)

/-- Witness data for the reconciliation claims: one un-audited entry. -/
def c6Ledger : Ledger := [("j1", { timeCreated := 0, audited := false })]

/-- Claim C6: the two reconciliation fan-outs have distinct fault policies —
a single failing status fetch for a to-audit id fails the whole
reconciliation and leaves every entry unmodified, while classification is
per-entry: an un-audited entry is marked audited exactly when its own
classification succeeds, and a failed classification leaves it un-audited in
the resulting ledger. -/
theorem claim6_fault_policies (g : String → Except String RemoteJob)
    (preAudit : Option PreAuditHook) (now : Int) (pJobs : Ledger) :
    (∀ k e, k ∈ jobsToAudit pJobs → g k = .error e →
      (∃ e', reconcile g preAudit now pJobs = .error e') ∧
      runReconcile g preAudit now pJobs = pJobs) ∧
    (∀ L' k r, reconcile g preAudit now pJobs = .ok L' →
      (k, r) ∈ pJobs → r.audited = false →
      (classifyOk g preAudit k = false → (k, r) ∈ L') ∧
      (classifyOk g preAudit k = true →
        (k, { r with audited := true }) ∈ L' ∨
        k ∈ jobsToDelete now pJobs)) := by
  constructor
  · intro k e hk he
    cases hf : fetchAll g (jobsToAudit pJobs) with
    | ok js =>
      obtain ⟨j, hj⟩ := fetchAll_ok_forall hf k hk
      rw [he] at hj
      cases hj
    | error e' =>
      refine ⟨⟨e', reconcile_fetch_error hf⟩, ?_⟩
      simp [runReconcile, reconcile_fetch_error hf]
  · intro L' k r hrec hmem haud
    rcases reconcile_ok_cases hrec with ⟨hA, hL⟩ | ⟨hA, hjs, hL⟩
    · exfalso
      have hkA : k ∈ jobsToAudit pJobs := mem_jobsToAudit.mpr ⟨r, hmem, haud⟩
      rw [hA] at hkA
      simp at hkA
    · constructor
      · intro hcls
        have hnK : k ∉ (jobsToAudit pJobs).filter (classifyOk g preAudit) := by
          intro hkK
          have hkt := List.of_mem_filter hkK
          rw [hcls] at hkt
          exact Bool.noConfusion hkt
        have hmark := @markAudited_mem_of_mem
          ((jobsToAudit pJobs).filter (classifyOk g preAudit)) pJobs k r hmem
        rw [if_neg hnK] at hmark
        rw [hL]
        refine mem_deleteAudited.mpr ⟨hmark, ?_⟩
        rintro ⟨hkD, hktrue⟩
        rw [haud] at hktrue
        exact Bool.noConfusion hktrue
      · intro hcls
        have hkK : k ∈ (jobsToAudit pJobs).filter (classifyOk g preAudit) :=
          List.mem_filter.mpr ⟨mem_jobsToAudit.mpr ⟨r, hmem, haud⟩, hcls⟩
        have hmark := @markAudited_mem_of_mem
          ((jobsToAudit pJobs).filter (classifyOk g preAudit)) pJobs k r hmem
        rw [if_pos hkK] at hmark
        by_cases hkD : k ∈ jobsToDelete now pJobs
        · exact Or.inr hkD
        · left
          rw [hL]
          refine mem_deleteAudited.mpr ⟨hmark, ?_⟩
          rintro ⟨hkD2, _⟩
          exact hkD hkD2

/-- Witness for claim C6's theorem: a failing fetch leaves the concrete
ledger unchanged, and a successful classification marks the entry. -/
theorem claim6_witness :
    runReconcile (fun _ => .error "boom") none 0 c6Ledger = c6Ledger ∧
    ("j1", { timeCreated := 0, audited := true }) ∈
      ([("j1", { timeCreated := 0, audited := true })] : Ledger) := by
  constructor
  · exact ((claim6_fault_policies (fun _ => .error "boom") none 0
      c6Ledger).1 "j1" "boom" (by decide) rfl).2
  · have h2 := ((claim6_fault_policies (fun _ => .ok doneJob) none 0
      c6Ledger).2 [("j1", { timeCreated := 0, audited := true })] "j1"
      { timeCreated := 0, audited := false } rfl (by decide) rfl).2 (by decide)
    rcases h2 with hin | hdel
    · exact hin
    · exact absurd hdel (by decide)

/-- Ledger with a single audited entry eight days old. -/
def agedAuditedLedger : Ledger :=
  [("j-old", { timeCreated := 0, audited := true })]

/-- Claim C4 counterexample: with only an audited 8-day-old entry (so the
to-audit set is empty), reconciliation returns the ledger unchanged — the
audited entry older than 7 days is NOT purged, because the deletion loop is
only reached when something is un-audited. -/
theorem claim4_counterexample :
    reconcile (fun _ => .error "unused") none 691200000 agedAuditedLedger =
      .ok agedAuditedLedger ∧
    jsRoundDiv1000 (691200000 - (0 : Int)) >
      MAX_SECONDS_IN_AUDIT_OBJECT := by
  constructor
  · rfl
  · decide

/-- Claim C4 (amended): when the to-audit set is empty, reconciliation
returns the ledger unchanged and purges nothing; otherwise, on success and
for a ledger with distinct keys, an entry is removed exactly when its age
exceeds the 7-day retention threshold and its audited flag is true after
this cycle's classification (already audited, or classified successfully
now). -/
theorem claim4_amended (g : String → Except String RemoteJob)
    (preAudit : Option PreAuditHook) (now : Int) (pJobs L' : Ledger)
    (hrec : reconcile g preAudit now pJobs = .ok L')
    (hnd : (pJobs.map Prod.fst).Nodup) :
    (jobsToAudit pJobs = [] → L' = pJobs) ∧
    (jobsToAudit pJobs ≠ [] →
      ∀ k r, (k, r) ∈ pJobs →
        ((∀ r', (k, r') ∉ L') ↔
          (jsRoundDiv1000 (now - r.timeCreated) >
              MAX_SECONDS_IN_AUDIT_OBJECT ∧
            (r.audited = true ∨ classifyOk g preAudit k = true)))) := by
  constructor
  · intro hA
    rcases reconcile_ok_cases hrec with ⟨_, hL⟩ | ⟨hA2, _, _⟩
    · exact hL
    · exact absurd hA hA2
  · intro hA k r hmem
    rcases reconcile_ok_cases hrec with ⟨hA2, _⟩ | ⟨_, hjs, hL⟩
    · exact absurd hA2 hA
    · have hKmem : k ∈ (jobsToAudit pJobs).filter (classifyOk g preAudit) ↔
          (r.audited = false ∧ classifyOk g preAudit k = true) := by
        constructor
        · intro hkK
          have hcls := List.of_mem_filter hkK
          have hkA := List.mem_of_mem_filter hkK
          obtain ⟨r0, hr0mem, hr0aud⟩ := mem_jobsToAudit.mp hkA
          have heq : r0 = r := nodup_key_eq hnd hr0mem hmem
          exact ⟨heq ▸ hr0aud, hcls⟩
        · rintro ⟨haud, hcls⟩
          exact List.mem_filter.mpr
            ⟨mem_jobsToAudit.mpr ⟨r, hmem, haud⟩, hcls⟩
      have hDmem : k ∈ jobsToDelete now pJobs ↔
          jsRoundDiv1000 (now - r.timeCreated) >
            MAX_SECONDS_IN_AUDIT_OBJECT := by
        constructor
        · intro hkD
          obtain ⟨r0, hr0mem, hr0exp⟩ := mem_jobsToDelete.mp hkD
          have heq : r0 = r := nodup_key_eq hnd hr0mem hmem
          rwa [heq] at hr0exp
        · intro hexp
          exact mem_jobsToDelete.mpr ⟨r, hmem, hexp⟩
      have hmark := @markAudited_mem_of_mem
        ((jobsToAudit pJobs).filter (classifyOk g preAudit)) pJobs k r hmem
      have huniq : ∀ r', (k, r') ∈
          markAudited ((jobsToAudit pJobs).filter (classifyOk g preAudit))
            pJobs →
          r' = (if k ∈ (jobsToAudit pJobs).filter (classifyOk g preAudit)
                then { r with audited := true } else r) := by
        intro r' hr'
        obtain ⟨r0, hr0mem, hcase⟩ := markAudited_mem_elim hr'
        have heq : r0 = r := nodup_key_eq hnd hr0mem hmem
        subst heq
        rcases hcase with ⟨hin, hreq⟩ | ⟨hnin, hreq⟩
        · rw [if_pos hin]; exact hreq
        · rw [if_neg hnin]; exact hreq
      have hpostaud :
          (if k ∈ (jobsToAudit pJobs).filter (classifyOk g preAudit)
           then { r with audited := true } else r).audited = true ↔
          (r.audited = true ∨ classifyOk g preAudit k = true) := by
        by_cases hkK :
            k ∈ (jobsToAudit pJobs).filter (classifyOk g preAudit)
        · rw [if_pos hkK]
          constructor
          · intro _
            exact Or.inr (hKmem.mp hkK).2
          · intro _
            rfl
        · rw [if_neg hkK]
          constructor
          · exact Or.inl
          · rintro (h1 | h1)
            · exact h1
            · cases ha : r.audited
              · exact absurd (hKmem.mpr ⟨ha, h1⟩) hkK
              · rfl
      rw [hL]
      constructor
      · intro hgone
        by_contra hcon
        apply hgone
          (if k ∈ (jobsToAudit pJobs).filter (classifyOk g preAudit)
           then { r with audited := true } else r)
        refine mem_deleteAudited.mpr ⟨hmark, ?_⟩
        rintro ⟨hkD, hpost⟩
        exact hcon ⟨hDmem.mp hkD, hpostaud.mp hpost⟩
      · rintro ⟨hexp, haudcls⟩ r' hr'
        have hreq := huniq r' (mem_deleteAudited.mp hr').1
        apply (mem_deleteAudited.mp hr').2
        refine ⟨hDmem.mpr hexp, ?_⟩
        rw [hreq]
        exact hpostaud.mpr haudcls

/-- Witness ledger for claim C4: one un-audited and one audited entry, both
eight days old. -/
def c4wLedger : Ledger :=
  [("a", { timeCreated := 0, audited := false }),
   ("b", { timeCreated := 0, audited := true })]

/-- Witness for claim C4's amended theorem: with a successful
classification, both expired entries of the concrete ledger are purged. -/
theorem claim4_witness :
    reconcile (fun _ => .ok doneJob) none 691200000 c4wLedger =
      .ok ([] : Ledger) ∧
    (∀ r', ("a", r') ∉ ([] : Ledger)) := by
  have hrec : reconcile (fun _ => .ok doneJob) none 691200000 c4wLedger =
      .ok ([] : Ledger) := by rfl
  refine ⟨hrec, ?_⟩
  have h := (claim4_amended (fun _ => .ok doneJob) none 691200000 c4wLedger
    [] hrec (by decide)).2 (by decide) "a"
    { timeCreated := 0, audited := false } (by decide)
  exact h.mpr ⟨by decide, Or.inr (by decide)⟩

/-- Claim C9: reconciliation is idempotent — with unchanged remote job
statuses, classification behavior and clock, running it a second time on
the resulting in-memory ledger leaves that ledger identical. -/
theorem claim9_reconcile_idempotent (g : String → Except String RemoteJob)
    (preAudit : Option PreAuditHook) (now : Int) (pJobs : Ledger) :
    runReconcile g preAudit now (runReconcile g preAudit now pJobs) =
      runReconcile g preAudit now pJobs := by
  cases hr : reconcile g preAudit now pJobs with
  | error e => simp [runReconcile, hr]
  | ok L' =>
    have h1 : runReconcile g preAudit now pJobs = L' := by
      simp [runReconcile, hr]
    rw [h1]
    rcases reconcile_ok_cases hr with ⟨hA, hL⟩ | ⟨hA, ⟨js, hf⟩, hL⟩
    · rw [hL]
      exact h1.trans hL
    · by_cases hA' : jobsToAudit L' = []
      · simp [runReconcile, reconcile_empty hA']
      · have htrace : ∀ k ∈ jobsToAudit L',
            k ∈ jobsToAudit pJobs ∧ classifyOk g preAudit k = false := by
          intro k hk
          obtain ⟨r', hmem', haud'⟩ := mem_jobsToAudit.mp hk
          rw [hL] at hmem'
          have hmk := (mem_deleteAudited.mp hmem').1
          obtain ⟨r0, hr0mem, hcase⟩ := markAudited_mem_elim hmk
          rcases hcase with ⟨hin, hreq⟩ | ⟨hnin, hreq⟩
          · rw [hreq] at haud'
            simp at haud'
          · have hkA : k ∈ jobsToAudit pJobs :=
              mem_jobsToAudit.mpr ⟨r0, hr0mem, hreq ▸ haud'⟩
            refine ⟨hkA, ?_⟩
            cases hcls : classifyOk g preAudit k
            · rfl
            · exact absurd (List.mem_filter.mpr ⟨hkA, hcls⟩) hnin
        have hsub : ∀ k ∈ jobsToAudit L', ∃ j, g k = .ok j := by
          intro k hk
          exact fetchAll_ok_forall hf k (htrace k hk).1
        obtain ⟨js', hf'⟩ := fetchAll_ok_of_forall hsub
        have hK' :
            (jobsToAudit L').filter (classifyOk g preAudit) = [] := by
          apply List.filter_eq_nil_iff.mpr
          intro k hk
          rw [(htrace k hk).2]
          simp
        have hDsub : ∀ q, q ∈ jobsToDelete now L' →
            q ∈ jobsToDelete now pJobs := by
          intro q hq
          obtain ⟨r2, hr2mem, hexp⟩ := mem_jobsToDelete.mp hq
          rw [hL] at hr2mem
          have hmk2 := (mem_deleteAudited.mp hr2mem).1
          obtain ⟨r20, hr20mem, hcase2⟩ := markAudited_mem_elim hmk2
          have htc : r2.timeCreated = r20.timeCreated := by
            rcases hcase2 with ⟨_, hreq⟩ | ⟨_, hreq⟩ <;> rw [hreq]
          exact mem_jobsToDelete.mpr ⟨r20, hr20mem, by rwa [htc] at hexp⟩
        have hrec2 := @reconcile_fetch_ok g preAudit now L' js' hA' hf'
        rw [hK', markAudited_nil] at hrec2
        have hdel : deleteAudited (jobsToDelete now L') L' = L' := by
          apply deleteAudited_eq_self
          intro kv hkv
          rintro ⟨hkD', hkaud⟩
          have hkD := hDsub kv.1 hkD'
          exact (mem_deleteAudited.mp (hL ▸ hkv)).2 ⟨hkD, hkaud⟩
        rw [hdel] at hrec2
        simp [runReconcile, hrec2]

end MantaMola
